import Mathlib

/- Verification development for the line-delimited socket client
   (src/client/socket_client.py).

   Modelling conventions:
   - bytes are Nat values, byte strings (Python bytes) are List Nat;
   - Python str values are List Char (sequences of Unicode scalar values);
   - the socket is modelled by explicit event lists: receive_data consumes
     RecvEvent items, each the result of one self._sock.recv(4096) call,
     and send_data consumes a list of byte counts, each the return value of
     one self._sock.send(...) call;
   - a raised Python exception is a PyExc value (class name and message);
   - the state of a SocketClient instance is its receive buffer and its
     closed flag (host, port, timeout and the descriptor itself do not
     enter the framing logic). -/

/-- Is `b` a UTF-8 continuation byte (0x80..0xBF)? -/
def isCont (b : Nat) : Bool := 0x80 ≤ b && b < 0xC0

/-- UTF-8 encoding of one Unicode scalar value, as performed by Python
    str.encode("utf-8") on each character. -/
def utf8EncodeChar (c : Char) : List Nat :=
  let n := c.toNat
  if n < 0x80 then [n]
  else if n < 0x800 then [0xC0 + n / 64, 0x80 + n % 64]
  else if n < 0x10000 then [0xE0 + n / 4096, 0x80 + n / 64 % 64, 0x80 + n % 64]
  else [0xF0 + n / 262144, 0x80 + n / 4096 % 64, 0x80 + n / 64 % 64, 0x80 + n % 64]

/-- Python str.encode("utf-8"). -/
def utf8Encode (s : List Char) : List Nat := (s.map utf8EncodeChar).flatten

/-- Python bytes.decode("utf-8"): returns none exactly when the byte string
    is not valid UTF-8 (stray continuation bytes, truncated sequences,
    overlong forms, surrogates, out-of-range code points). -/
def utf8Decode : List Nat → Option (List Char)
  | [] => some []
  | b :: rest =>
    if b < 0x80 then (utf8Decode rest).map (fun cs => Char.ofNat b :: cs)
    else if b < 0xC2 then none
    else if b < 0xE0 then
      match rest with
      | b2 :: rest2 =>
        if isCont b2 then
          (utf8Decode rest2).map (fun cs => Char.ofNat ((b - 0xC0) * 64 + (b2 - 0x80)) :: cs)
        else none
      | [] => none
    else if b < 0xF0 then
      match rest with
      | b2 :: b3 :: rest3 =>
        let n := (b - 0xE0) * 4096 + (b2 - 0x80) * 64 + (b3 - 0x80)
        if isCont b2 && isCont b3 && decide (0x800 ≤ n) &&
            (decide (n < 0xD800) || decide (0xE000 ≤ n)) then
          (utf8Decode rest3).map (fun cs => Char.ofNat n :: cs)
        else none
      | _ => none
    else if b < 0xF5 then
      match rest with
      | b2 :: b3 :: b4 :: rest4 =>
        let n := (b - 0xF0) * 262144 + (b2 - 0x80) * 4096 + (b3 - 0x80) * 64 + (b4 - 0x80)
        if isCont b2 && isCont b3 && isCont b4 && decide (0x10000 ≤ n) &&
            decide (n < 0x110000) then
          (utf8Decode rest4).map (fun cs => Char.ofNat n :: cs)
        else none
      | _ => none
    else none

/-- A raised Python exception: its class name and its message. -/
structure PyExc where
  cls : String
  msg : String
  deriving DecidableEq

/-- raise RuntimeError("SocketClient is closed")  (send_data / receive_data guard) -/
def closedExc : PyExc := ⟨"RuntimeError", "SocketClient is closed"⟩

/-- raise RuntimeError("Socket connection broken while sending") -/
def brokenSendExc : PyExc := ⟨"RuntimeError", "Socket connection broken while sending"⟩

/-- raise RuntimeError("Server closed connection") -/
def serverClosedExc : PyExc := ⟨"RuntimeError", "Server closed connection"⟩

/-- raise RuntimeError(f"Socket recv error: {e}")  — the wrapped socket.error -/
def recvErrExc (m : String) : PyExc := ⟨"RuntimeError", "Socket recv error: " ++ m⟩

/-- socket.timeout, re-raised unchanged by receive_data -/
def timeoutExc : PyExc := ⟨"socket.timeout", "timed out"⟩

/-- UnicodeDecodeError raised by bytes.decode("utf-8") on invalid input -/
def decodeExc : PyExc := ⟨"UnicodeDecodeError", "invalid utf-8"⟩

/-- Result of one call: normal return, raised exception, or `blocked`,
    meaning the supplied socket-event list ran out while the Python call
    would still be blocking on the socket. -/
inductive Outcome (α : Type) where
  | ok (val : α)
  | exc (e : PyExc)
  | blocked
  deriving DecidableEq

/-- The mutable state of one SocketClient instance (fields of the Python
    object that the framing logic reads or writes). -/
structure SocketClient where
  _recv_buffer : List Nat
  _closed : Bool
  deriving DecidableEq

/-- One result of a self._sock.recv(4096) call: a chunk of bytes (empty =
    peer closed the connection), a socket.timeout, or a socket.error. -/
inductive RecvEvent where
  | chunk (data : List Nat)
  | timeout
  | sockError (msg : String)
  deriving DecidableEq

/-- self._recv_buffer.find(b"\n"): index of the first newline byte,
    `none` standing for Python's -1. -/
def findNl : List Nat → Option Nat
  | [] => none
  | b :: rest => if b == 10 then some 0 else (findNl rest).map (fun i => i + 1)

/-- `line.decode("utf-8")` as the result of the receive call. -/
def lineOutcome (line : List Nat) : Outcome (List Char) :=
  match utf8Decode line with
  | some cs => .ok cs
  | none => .exc decodeExc

/-- The `while True` loop of receive_data, starting from buffer `buf`:
    returns the call's outcome, the final value of self._recv_buffer, and
    the socket events not consumed by this call.  The Option.elim mirrors
    Python's `if nl_index != -1: ... ` / else read from the socket: the
    some-branch slices the buffer at the first newline, the none-branch
    performs one recv and loops. -/
def receiveLoop (buf : List Nat) (events : List RecvEvent) :
    Outcome (List Char) × List Nat × List RecvEvent :=
  (findNl buf).elim
    (match events with
     | [] => (.blocked, buf, [])
     | .timeout :: rest => (.exc timeoutExc, buf, rest)
     | .sockError m :: rest => (.exc (recvErrExc m), buf, rest)
     | .chunk c :: rest =>
       if c.isEmpty then
         if buf.isEmpty then (.exc serverClosedExc, buf, rest)
         else (lineOutcome buf, [], rest)
       else receiveLoop (buf ++ c) rest)
    (fun i => (lineOutcome (buf.take i), buf.drop (i + 1), events))

/-- SocketClient.receive_data: closed-flag guard, then the receive loop.
    Returns the outcome, the instance state after the call, and the
    unconsumed socket events. -/
def receive_data (st : SocketClient) (events : List RecvEvent) :
    Outcome (List Char) × SocketClient × List RecvEvent :=
  if st._closed then (.exc closedExc, st, events)
  else
    let r := receiveLoop st._recv_buffer events
    (r.1, { st with _recv_buffer := r.2.1 }, r.2.2)

/-- data.endswith("\n") on the Python str. -/
def endsWithNewline (data : List Char) : Bool := data.getLast? == some '\n'

/-- The byte payload send_data builds: append "\n" unless already present,
    then encode as UTF-8. -/
def sendPayload (data : List Char) : List Nat :=
  utf8Encode (if endsWithNewline data then data else data ++ ['\n'])

/-- The `while totalsent < len(payload)` loop of send_data.  Each element
    of `accepts` is the return value of one self._sock.send(...) call.
    Returns the outcome and the bytes actually written to the wire. -/
def sendLoop (payload : List Nat) (totalsent : Nat) (accepts : List Nat) :
    Outcome Unit × List Nat :=
  if totalsent < payload.length then
    match accepts with
    | [] => (.blocked, [])
    | n :: rest =>
      if n = 0 then (.exc brokenSendExc, [])
      else
        let r := sendLoop payload (totalsent + n) rest
        (r.1, (payload.drop totalsent).take n ++ r.2)
  else (.ok (), [])

/-- SocketClient.send_data: closed-flag guard, framing, then the send loop.
    Returns the outcome and the bytes written to the wire. -/
def send_data (st : SocketClient) (data : List Char) (accepts : List Nat) :
    Outcome Unit × List Nat :=
  if st._closed then (.exc closedExc, [])
  else sendLoop (sendPayload data) 0 accepts

/-- Result of the shutdown/close syscall pair inside close(): either it
    runs fine or some exception is raised along the way. -/
inductive ShutdownResult where
  | ok
  | err (msg : String)

/-- The body of the `try` block of close(): self._sock.shutdown + close. -/
def shutdownAndClose : ShutdownResult → Except PyExc Unit
  | .ok => .ok ()
  | .err m => .error ⟨"OSError", m⟩

/-- SocketClient.close: early return when already closed, shutdown attempt
    with every exception suppressed, then the closed flag is set.  The
    Except layer records whether the call itself raises. -/
def close (st : SocketClient) (shut : ShutdownResult) : Except PyExc SocketClient :=
  if st._closed then .ok st
  else
    match shutdownAndClose shut with
    | .ok _ => .ok { st with _closed := true }
    | .error _ => .ok { st with _closed := true }

/- Concurrency model for send_data's critical section.  Each thread is one
   send_data call with a fixed payload `pay.getD tid []`; `sents` records
   each thread's totalsent counter, `wire` the bytes written so far, and
   `lock` which thread currently holds self._lock (`none` = free).  The
   three step rules are exactly what a thread may do: take the free lock on
   entry to `with self._lock`, write the next slice of its payload while
   holding it, and release it once the loop finished. -/
structure WireSys where
  lock : Option Nat
  wire : List Nat
  sents : List Nat
  deriving DecidableEq

/-- Interleaving semantics of concurrent send_data calls under self._lock. -/
inductive WireStep (pay : List (List Nat)) : WireSys → WireSys → Prop
  | acquire (s : WireSys) (tid : Nat) (hfree : s.lock = none)
      (htid : tid < pay.length) (hzero : s.sents.getD tid 0 = 0) :
      WireStep pay s ⟨some tid, s.wire, s.sents⟩
  | write (s : WireSys) (tid k : Nat) (hl : s.lock = some tid) (hk : 0 < k)
      (hrem : s.sents.getD tid 0 + k ≤ (pay.getD tid []).length) :
      WireStep pay s ⟨some tid,
        s.wire ++ ((pay.getD tid []).drop (s.sents.getD tid 0)).take k,
        s.sents.set tid (s.sents.getD tid 0 + k)⟩
  | release (s : WireSys) (tid : Nat) (hl : s.lock = some tid)
      (hdone : s.sents.getD tid 0 = (pay.getD tid []).length) :
      WireStep pay s ⟨none, s.wire, s.sents⟩

/-- Initial state: lock free, empty wire, no thread has sent anything. -/
def initSys (pay : List (List Nat)) : WireSys :=
  ⟨none, [], List.replicate pay.length 0⟩

/-- The wire contents contributed by the completed threads `done`. -/
def wireFrames (pay : List (List Nat)) (done : List Nat) : List Nat :=
  (done.map (fun t => pay.getD t [])).flatten

/-- Invariant tying the wire to a list `done` of threads whose full frames
    already sit on the wire in order, possibly followed by the partial
    frame of the current lock holder. -/
def WireInv (pay : List (List Nat)) (s : WireSys) : Prop :=
  s.sents.length = pay.length ∧
  ∃ done : List Nat,
    done.Nodup ∧
    (∀ t ∈ done, t < pay.length ∧ s.sents.getD t 0 = (pay.getD t []).length) ∧
    ((s.lock = none ∧ s.wire = wireFrames pay done ∧
        ∀ t, t < pay.length → t ∉ done → s.sents.getD t 0 = 0) ∨
      (∃ h, s.lock = some h ∧ h < pay.length ∧ h ∉ done ∧
        s.wire = wireFrames pay done ++ (pay.getD h []).take (s.sents.getD h 0) ∧
        ∀ t, t < pay.length → t ∉ done → t ≠ h → s.sents.getD t 0 = 0))


theorem findNl_eq_none (l : List Nat) (h : 10 ∉ l) : findNl l = none := by
  induction l with
  | nil => rfl
  | cons a t ih =>
    simp only [List.mem_cons, not_or] at h
    simp [findNl, fun hh : a = 10 => h.1 hh.symm, ih h.2]
    intro hh; exact absurd hh.symm h.1

theorem findNl_append_cons (pre post : List Nat) (h : 10 ∉ pre) :
    findNl (pre ++ 10 :: post) = some pre.length := by
  induction pre with
  | nil => simp [findNl]
  | cons a t ih =>
    simp only [List.mem_cons, not_or] at h
    have ha : (a == 10) = false := by
      simp; intro hh; exact h.1 hh.symm
    simp [findNl, ha, ih h.2]

theorem receiveLoop_found (buf : List Nat) (evs : List RecvEvent) (i : Nat)
    (h : findNl buf = some i) :
    receiveLoop buf evs = (lineOutcome (buf.take i), buf.drop (i + 1), evs) := by
  rw [receiveLoop.eq_def, h]
  rfl

theorem receiveLoop_split (pre post : List Nat) (evs : List RecvEvent) (h : 10 ∉ pre) :
    receiveLoop (pre ++ 10 :: post) evs = (lineOutcome pre, post, evs) := by
  rw [receiveLoop_found _ _ _ (findNl_append_cons pre post h)]
  have h1 : (pre ++ 10 :: post).take pre.length = pre := by
    simpa using List.take_left pre (10 :: post)
  have h2 : (pre ++ 10 :: post).drop (pre.length + 1) = post := by
    have : pre ++ 10 :: post = (pre ++ [10]) ++ post := by simp
    rw [this]
    have := List.drop_left (pre ++ [10]) post
    simpa using this
  rw [h1, h2]

theorem receiveLoop_timeout (buf : List Nat) (rest : List RecvEvent) (h : findNl buf = none) :
    receiveLoop buf (.timeout :: rest) = (.exc timeoutExc, buf, rest) := by
  rw [receiveLoop, h]
  rfl

theorem receiveLoop_chunk (buf c : List Nat) (rest : List RecvEvent)
    (h : findNl buf = none) (hc : c ≠ []) :
    receiveLoop buf (.chunk c :: rest) = receiveLoop (buf ++ c) rest := by
  rw [receiveLoop, h]
  simp [hc]

theorem receiveLoop_eof (buf : List Nat) (rest : List RecvEvent) (h : findNl buf = none) :
    receiveLoop buf (.chunk [] :: rest) =
      (if buf.isEmpty then (.exc serverClosedExc, buf, rest) else (lineOutcome buf, [], rest)) := by
  rw [receiveLoop, h]
  rfl

theorem mem_split10 (l : List Nat) (h : 10 ∈ l) :
    ∃ pre post, l = pre ++ 10 :: post ∧ 10 ∉ pre := by
  induction l with
  | nil => cases h
  | cons a t ih =>
    by_cases ha : a = 10
    · exact ⟨[], t, by simp [ha], by simp⟩
    · have ht : 10 ∈ t := by
        rcases List.mem_cons.1 h with h1 | h1
        · exact absurd h1.symm ha
        · exact h1
      obtain ⟨pre, post, heq, hpre⟩ := ih ht
      exact ⟨a :: pre, post, by simp [heq], by simp [hpre]; intro hh; exact ha hh.symm⟩

theorem takeWhile_split (pre post : List Nat) (h : 10 ∉ pre) :
    (pre ++ 10 :: post).takeWhile (fun x => x != 10) = pre := by
  induction pre with
  | nil => simp [List.takeWhile]
  | cons a t ih =>
    simp only [List.mem_cons, not_or] at h
    have ha : (a != 10) = true := by
      simp; intro hh; exact h.1 hh.symm
    simp [List.takeWhile_cons, ha, ih h.2]

theorem receiveLoop_chunks (cs : List (List Nat)) : ∀ (b : List Nat) (evs : List RecvEvent),
    10 ∉ b ++ cs.flatten → (∀ c ∈ cs, c ≠ []) →
    receiveLoop b (cs.map RecvEvent.chunk ++ evs) = receiveLoop (b ++ cs.flatten) evs := by
  induction cs with
  | nil => intro b evs _ _; simp
  | cons c rest ih =>
    intro b evs hmem hcs
    have hb : 10 ∉ b := fun hh => hmem (by simp [hh])
    rw [List.map_cons, List.cons_append,
      receiveLoop_chunk _ _ _ (findNl_eq_none _ hb) (hcs c (by simp))]
    have := ih (b ++ c) evs (by simpa [List.append_assoc] using hmem)
      (fun c' hc' => hcs c' (by simp [hc']))
    simpa [List.append_assoc] using this

theorem receiveLoop_assemble (cs : List (List Nat)) : ∀ (b : List Nat),
    10 ∉ b → (∀ c ∈ cs, c ≠ []) → 10 ∈ b ++ cs.flatten →
    (receiveLoop b (cs.map RecvEvent.chunk)).1 =
      lineOutcome ((b ++ cs.flatten).takeWhile (fun x => x != 10)) := by
  induction cs with
  | nil => intro b hb _ hmem; simp at hmem; exact absurd hmem hb
  | cons c rest ih =>
    intro b hb hcs hmem
    rw [List.map_cons, receiveLoop_chunk _ _ _ (findNl_eq_none _ hb) (hcs c (by simp))]
    by_cases h10 : 10 ∈ b ++ c
    · obtain ⟨pre, post, hsplit, hpre⟩ := mem_split10 (b ++ c) h10
      have hstream : b ++ (c :: rest).flatten = pre ++ 10 :: (post ++ rest.flatten) := by
        rw [List.flatten_cons, ← List.append_assoc, hsplit]
        simp
      rw [hsplit, receiveLoop_split _ _ _ hpre, hstream, takeWhile_split _ _ hpre]
    · have := ih (b ++ c) h10 (fun c' hc' => hcs c' (by simp [hc']))
        (by simpa [List.append_assoc] using hmem)
      rw [this]
      congr 2
      simp [List.append_assoc]

theorem sendLoop_ok (accepts : List Nat) : ∀ (payload : List Nat) (t : Nat),
    (sendLoop payload t accepts).1 = .ok () →
    (sendLoop payload t accepts).2 = payload.drop t := by
  induction accepts with
  | nil =>
    intro payload t h
    rw [sendLoop] at h ⊢
    by_cases ht : t < payload.length
    · rw [if_pos ht] at h
      simp at h
    · rw [if_neg ht]
      exact (List.drop_eq_nil_of_le (Nat.le_of_not_lt ht)).symm
  | cons n rest ih =>
    intro payload t h
    rw [sendLoop] at h ⊢
    by_cases ht : t < payload.length
    · rw [if_pos ht] at h ⊢
      by_cases hn : n = 0
      · rw [if_pos hn] at h
        simp at h
      · rw [if_neg hn] at h ⊢
        simp only [] at h ⊢
        have h2 : (sendLoop payload (t + n) rest).2 = payload.drop (t + n) :=
          ih payload (t + n) h
        rw [h2]
        have h3 : payload.drop (t + n) = (payload.drop t).drop n := by
          rw [List.drop_drop, Nat.add_comm]
        rw [h3, List.take_append_drop]
    · rw [if_neg ht]
      exact (List.drop_eq_nil_of_le (Nat.le_of_not_lt ht)).symm

theorem utf8Encode_append (s t : List Char) :
    utf8Encode (s ++ t) = utf8Encode s ++ utf8Encode t := by
  simp [utf8Encode]

theorem sendPayload_eq (data : List Char) :
    sendPayload data =
      (if endsWithNewline data then utf8Encode data else utf8Encode data ++ [10]) := by
  rw [sendPayload]
  by_cases h : endsWithNewline data
  · simp [h]
  · simp only [h, if_neg, Bool.false_eq_true, if_false]
    rw [utf8Encode_append]
    rfl

theorem getD_set_self (l : List Nat) (i v : Nat) (h : i < l.length) :
    (l.set i v).getD i 0 = v := by
  simp [List.getD_eq_getElem?_getD, List.getElem?_set_self, h]

theorem getD_set_ne (l : List Nat) (i j v : Nat) (h : i ≠ j) :
    (l.set i v).getD j 0 = l.getD j 0 := by
  simp [List.getD_eq_getElem?_getD, List.getElem?_set_ne h]

theorem getD_replicate_zero (n t : Nat) : (List.replicate n 0).getD t 0 = 0 := by
  simp only [List.getD_eq_getElem?_getD, List.getElem?_replicate]
  split <;> rfl

theorem payload_length_pos (pay : List (List Nat)) (hpay : ∀ p ∈ pay, p ≠ [])
    (t : Nat) (ht : t < pay.length) : 0 < (pay.getD t []).length := by
  have hmem : pay.getD t [] ∈ pay := by
    rw [List.getD_eq_getElem _ _ ht]
    exact List.getElem_mem ht
  rcases Nat.eq_zero_or_pos (pay.getD t []).length with h0 | hpos
  · exact absurd (List.length_eq_zero.1 h0) (hpay _ hmem)
  · exact hpos

theorem wireInv_init (pay : List (List Nat)) : WireInv pay (initSys pay) := by
  refine ⟨by simp [initSys], [], List.nodup_nil, by simp, Or.inl ⟨rfl, ?_, ?_⟩⟩
  · simp [wireFrames, initSys]
  · intro t _ _
    exact getD_replicate_zero _ _

theorem wireInv_step (pay : List (List Nat)) (hpay : ∀ p ∈ pay, p ≠ [])
    (s s' : WireSys) (hstep : WireStep pay s s') (hinv : WireInv pay s) :
    WireInv pay s' := by
  obtain ⟨hlen, done, hnd, hdone, hcase⟩ := hinv
  cases hstep with
  | acquire tid hfree htid hzero =>
    rcases hcase with ⟨_, hw, hz⟩ | ⟨h, hlock, _⟩
    · have htnd : tid ∉ done := by
        intro hmem
        have hfin := (hdone tid hmem).2
        have hpos := payload_length_pos pay hpay tid htid
        omega
      refine ⟨hlen, done, hnd, hdone, Or.inr ⟨tid, rfl, htid, htnd, ?_, ?_⟩⟩
      · rw [hzero]
        simpa using hw
      · intro t ht htd _
        exact hz t ht htd
    · rw [hlock] at hfree
      cases hfree
  | write tid k hl hk hrem =>
    rcases hcase with ⟨hfree, _, _⟩ | ⟨h, hlock, hh, hhd, hw, hz⟩
    · rw [hl] at hfree
      cases hfree
    · rw [hl] at hlock
      injection hlock with hht
      subst hht
      have htlen : tid < s.sents.length := by
        rw [hlen]
        exact hh
      refine ⟨by rw [List.length_set]; exact hlen, done, hnd, ?_,
        Or.inr ⟨tid, rfl, hh, hhd, ?_, ?_⟩⟩
      · intro t hmem
        refine ⟨(hdone t hmem).1, ?_⟩
        rw [getD_set_ne _ _ _ _ (fun he => hhd (by rw [he]; exact hmem))]
        exact (hdone t hmem).2
      · show s.wire ++ _ = _
        rw [getD_set_self _ _ _ htlen, hw, List.append_assoc]
        congr 1
        exact (List.take_add _ _ _).symm
      · intro t ht htd htt
        rw [getD_set_ne _ _ _ _ (fun he => htt he.symm)]
        exact hz t ht htd htt
  | release tid hl hfin =>
    rcases hcase with ⟨hfree, _, _⟩ | ⟨h, hlock, hh, hhd, hw, hz⟩
    · rw [hl] at hfree
      cases hfree
    · rw [hl] at hlock
      injection hlock with hht
      subst hht
      refine ⟨hlen, done ++ [tid], ?_, ?_, Or.inl ⟨rfl, ?_, ?_⟩⟩
      · rw [List.nodup_append]
        refine ⟨hnd, List.nodup_singleton _, ?_⟩
        intro a ha hb
        rw [List.mem_singleton] at hb
        exact hhd (by rw [← hb]; exact ha)
      · intro t hmem
        rcases List.mem_append.1 hmem with hm | hm
        · exact hdone t hm
        · rw [List.mem_singleton] at hm
          subst hm
          exact ⟨hh, hfin⟩
      · rw [hw, hfin, List.take_length, wireFrames, wireFrames, List.map_append,
          List.flatten_append]
        simp
      · intro t ht htd
        rw [List.mem_append, not_or, List.mem_singleton] at htd
        exact hz t ht htd.1 htd.2

theorem wireInv_reachable (pay : List (List Nat)) (hpay : ∀ p ∈ pay, p ≠ [])
    (s : WireSys) (h : Relation.ReflTransGen (WireStep pay) (initSys pay) s) :
    WireInv pay s := by
  induction h with
  | refl => exact wireInv_init pay
  | tail _ hstep ih => exact wireInv_step pay hpay _ _ hstep ih


theorem receive_data_open (b : List Nat) (evs : List RecvEvent) :
    receive_data ⟨b, false⟩ evs =
      ((receiveLoop b evs).1, ⟨(receiveLoop b evs).2.1, false⟩, (receiveLoop b evs).2.2) := rfl

theorem send_data_open (b : List Nat) (data : List Char) (accepts : List Nat) :
    send_data ⟨b, false⟩ data accepts = sendLoop (sendPayload data) 0 accepts := rfl

/-- C1: for every string, send_data writes to the socket exactly the UTF-8
    encoding of the string followed by one newline when the string does not
    already end with a newline, and exactly the UTF-8 encoding unchanged
    when it does; no second delimiter is ever appended. -/
theorem send_appends_exactly_one_delimiter (data : List Char) (b : List Nat)
    (accepts : List Nat)
    (h : (send_data ⟨b, false⟩ data accepts).1 = .ok ()) :
    (send_data ⟨b, false⟩ data accepts).2 =
      (if endsWithNewline data then utf8Encode data else utf8Encode data ++ [10]) := by
  rw [send_data_open] at h ⊢
  rw [sendLoop_ok accepts (sendPayload data) 0 h, List.drop_zero, sendPayload_eq]

theorem send_appends_exactly_one_delimiter_witness :
    ((send_data ⟨[], false⟩ ['h', 'i'] [3]).1 = .ok () ∧
      (send_data ⟨[], false⟩ ['h', 'i'] [3]).2 =
        (if endsWithNewline ['h', 'i'] then utf8Encode ['h', 'i']
         else utf8Encode ['h', 'i'] ++ [10])) ∧
    (send_data ⟨[], false⟩ ['h', '\n'] [2]).2 =
      (if endsWithNewline ['h', '\n'] then utf8Encode ['h', '\n']
       else utf8Encode ['h', '\n'] ++ [10]) :=
  ⟨⟨by decide, send_appends_exactly_one_delimiter ['h', 'i'] [] [3] (by decide)⟩,
    send_appends_exactly_one_delimiter ['h', '\n'] [] [2] (by decide)⟩

/-- C2: when the buffer holds a delimiter, receive_data returns the decoded
    bytes strictly before the first delimiter, leaves exactly the bytes
    after it in the buffer, and consumes no socket event; two buffered
    messages are returned by two calls with no loss and no socket read. -/
theorem receive_returns_first_line_and_keeps_rest :
    (∀ (pre post : List Nat) (evs : List RecvEvent), 10 ∉ pre →
      receive_data ⟨pre ++ 10 :: post, false⟩ evs = (lineOutcome pre, ⟨post, false⟩, evs)) ∧
    (receive_data ⟨[65, 10, 66, 10], false⟩ [.chunk [99]] =
        (.ok ['A'], ⟨[66, 10], false⟩, [.chunk [99]]) ∧
      receive_data ⟨[66, 10], false⟩ [.chunk [99]] =
        (.ok ['B'], ⟨[], false⟩, [.chunk [99]])) := by
  refine ⟨?_, by decide, by decide⟩
  intro pre post evs h
  rw [receive_data_open, receiveLoop_split _ _ _ h]

theorem receive_returns_first_line_and_keeps_rest_witness :
    receive_data ⟨[65] ++ 10 :: [66], false⟩ [] = (lineOutcome [65], ⟨[66], false⟩, []) :=
  receive_returns_first_line_and_keeps_rest.1 [65] [66] [] (by decide)

/-- C3: when the buffer holds no delimiter, one receive_data call keeps
    reading chunks, appending each to the buffer and re-checking, until a
    delimiter appears, and returns the bytes of the assembled stream before
    its first delimiter; in particular deliveries "AB" then "C\n" yield one
    message "ABC". -/
theorem receive_assembles_until_delimiter :
    (∀ (cs : List (List Nat)) (b : List Nat), 10 ∉ b → (∀ c ∈ cs, c ≠ []) →
      10 ∈ b ++ cs.flatten →
      (receive_data ⟨b, false⟩ (cs.map RecvEvent.chunk)).1 =
        lineOutcome ((b ++ cs.flatten).takeWhile (fun x => x != 10))) ∧
    receive_data ⟨[], false⟩ [.chunk [65, 66], .chunk [67, 10]] =
      (.ok ['A', 'B', 'C'], ⟨[], false⟩, []) := by
  refine ⟨?_, by decide⟩
  intro cs b hb hcs hmem
  rw [receive_data_open]
  exact receiveLoop_assemble cs b hb hcs hmem

theorem receive_assembles_until_delimiter_witness :
    (receive_data ⟨[72], false⟩ ([[73], [10]].map RecvEvent.chunk)).1 =
      lineOutcome (([72] ++ [[73], [10]].flatten).takeWhile (fun x => x != 10)) :=
  receive_assembles_until_delimiter.1 [[73], [10]] [72] (by decide) (by decide) (by decide)

/-- C4: on a zero-byte read (peer closed): with a non-empty buffer,
    receive_data returns the leftover bytes once and clears the buffer, and
    the next call fails with the peer-closed error; with an empty buffer it
    fails immediately with that error. -/
theorem receive_eof_returns_leftover_then_fails :
    (∀ (b : List Nat) (rest : List RecvEvent), b ≠ [] → 10 ∉ b →
      receive_data ⟨b, false⟩ (.chunk [] :: rest) = (lineOutcome b, ⟨[], false⟩, rest)) ∧
    (∀ (rest : List RecvEvent),
      receive_data ⟨[], false⟩ (.chunk [] :: rest) =
        (.exc serverClosedExc, ⟨[], false⟩, rest)) := by
  constructor
  · intro b rest hb h10
    rw [receive_data_open, receiveLoop_eof _ _ (findNl_eq_none _ h10)]
    simp [hb]
  · intro rest
    rw [receive_data_open, receiveLoop_eof _ _ (findNl_eq_none _ (by simp))]
    simp

theorem receive_eof_returns_leftover_then_fails_witness :
    receive_data ⟨[88], false⟩ [.chunk []] = (lineOutcome [88], ⟨[], false⟩, []) :=
  receive_eof_returns_leftover_then_fails.1 [88] [] (by decide) (by decide)

/-- C5: after close() has returned, every send_data and every receive_data
    call fails with the closed error before touching the socket: no bytes
    are written and no socket event is consumed. -/
theorem post_close_send_receive_fail_fast :
    ∀ (st : SocketClient) (shut : ShutdownResult) (st' : SocketClient)
      (data : List Char) (accepts : List Nat) (evs : List RecvEvent),
      close st shut = .ok st' →
      send_data st' data accepts = (.exc closedExc, []) ∧
      receive_data st' evs = (.exc closedExc, st', evs) := by
  intro st shut st' data accepts evs hclose
  have hcl : st'._closed = true := by
    rw [close] at hclose
    by_cases h : st._closed = true
    · rw [if_pos h] at hclose
      simp only [Except.ok.injEq] at hclose
      rw [← hclose]
      exact h
    · rw [if_neg h] at hclose
      cases shut with
      | ok =>
        simp only [shutdownAndClose, Except.ok.injEq] at hclose
        rw [← hclose]
      | err m =>
        simp only [shutdownAndClose, Except.ok.injEq] at hclose
        rw [← hclose]
  constructor
  · simp [send_data, hcl]
  · simp [receive_data, hcl]

theorem post_close_send_receive_fail_fast_witness :
    send_data ⟨[], true⟩ ['a'] [5] = (.exc closedExc, []) ∧
    receive_data ⟨[], true⟩ [.chunk [65]] = (.exc closedExc, ⟨[], true⟩, [.chunk [65]]) :=
  post_close_send_receive_fail_fast ⟨[], false⟩ .ok ⟨[], true⟩ ['a'] [5] [.chunk [65]] rfl

/-- C6: a receive_data call that ends in socket.timeout leaves the buffer
    holding exactly the old bytes plus every chunk read during the call, so
    the next call continues assembling the same message with no loss. -/
theorem timeout_preserves_buffer :
    (∀ (b : List Nat) (cs : List (List Nat)) (rest : List RecvEvent),
      10 ∉ b ++ cs.flatten → (∀ c ∈ cs, c ≠ []) →
      receive_data ⟨b, false⟩ (cs.map RecvEvent.chunk ++ .timeout :: rest) =
        (.exc timeoutExc, ⟨b ++ cs.flatten, false⟩, rest)) ∧
    receive_data ⟨[65, 66], false⟩ [.chunk [67, 10]] =
      (.ok ['A', 'B', 'C'], ⟨[], false⟩, []) := by
  refine ⟨?_, by decide⟩
  intro b cs rest hmem hcs
  rw [receive_data_open, receiveLoop_chunks cs b _ hmem hcs,
    receiveLoop_timeout _ _ (findNl_eq_none _ hmem)]

theorem timeout_preserves_buffer_witness :
    receive_data ⟨[65], false⟩ ([[66]].map RecvEvent.chunk ++ .timeout :: []) =
      (.exc timeoutExc, ⟨[65] ++ [[66]].flatten, false⟩, []) :=
  timeout_preserves_buffer.1 [65] [[66]] [] (by decide) (by decide)

/-- C7 counterexample: the errors for send/receive after close, for a
    zero-byte write, and for a peer-closed connection are all raised as the
    same exception class RuntimeError, so they are not pairwise
    distinguishable by type. -/
theorem error_types_not_distinct_counterexample :
    (send_data ⟨[], true⟩ ['a'] [1]).1 = .exc closedExc ∧
    (send_data ⟨[], false⟩ ['a'] [0]).1 = .exc brokenSendExc ∧
    (receive_data ⟨[], false⟩ [.chunk []]).1 = .exc serverClosedExc ∧
    ¬ (closedExc.cls ≠ brokenSendExc.cls ∧ closedExc.cls ≠ serverClosedExc.cls ∧
        brokenSendExc.cls ≠ serverClosedExc.cls) := by
  refine ⟨rfl, by decide, by decide, ?_⟩
  intro h
  exact h.1 rfl

/-- C7 amended: the three failure modes share the single exception class
    RuntimeError and are distinguishable only by their message strings,
    which are pairwise distinct. -/
theorem errors_same_type_distinct_messages :
    (send_data ⟨[], true⟩ ['a'] [1]).1 = .exc closedExc ∧
    (send_data ⟨[], false⟩ ['a'] [0]).1 = .exc brokenSendExc ∧
    (receive_data ⟨[], false⟩ [.chunk []]).1 = .exc serverClosedExc ∧
    closedExc.cls = "RuntimeError" ∧ brokenSendExc.cls = "RuntimeError" ∧
    serverClosedExc.cls = "RuntimeError" ∧
    closedExc.msg ≠ brokenSendExc.msg ∧ closedExc.msg ≠ serverClosedExc.msg ∧
    brokenSendExc.msg ≠ serverClosedExc.msg := by
  refine ⟨rfl, by decide, by decide, rfl, rfl, rfl, by decide, by decide, by decide⟩

/-- C8: close never raises (all shutdown errors suppressed), always leaves
    the closed flag set, leaves the rest of the state alone, and a second
    or later call is a no-op. -/
theorem close_never_raises_idempotent_sets_flag :
    ∀ (st : SocketClient) (shut : ShutdownResult), ∃ st' : SocketClient,
      close st shut = .ok st' ∧ st'._closed = true ∧
      st'._recv_buffer = st._recv_buffer ∧
      ∀ shut2 : ShutdownResult, close st' shut2 = .ok st' := by
  intro st shut
  obtain ⟨b, c⟩ := st
  cases c with
  | false =>
    cases shut with
    | ok => exact ⟨⟨b, true⟩, rfl, rfl, rfl, fun _ => rfl⟩
    | err m => exact ⟨⟨b, true⟩, rfl, rfl, rfl, fun _ => rfl⟩
  | true => exact ⟨⟨b, true⟩, rfl, rfl, rfl, fun _ => rfl⟩

/-- C10: when the bytes before the first delimiter are not valid UTF-8, the
    decode error is raised only after the buffer has been advanced past the
    delimiter (or cleared in the end-of-stream leftover case): the bad
    bytes are discarded and the next call starts at the following
    message. -/
theorem decode_error_nonatomic_buffer_advanced :
    (∀ (pre post : List Nat) (evs : List RecvEvent), 10 ∉ pre → utf8Decode pre = none →
      receive_data ⟨pre ++ 10 :: post, false⟩ evs = (.exc decodeExc, ⟨post, false⟩, evs)) ∧
    (∀ (b : List Nat) (rest : List RecvEvent), b ≠ [] → 10 ∉ b → utf8Decode b = none →
      receive_data ⟨b, false⟩ (.chunk [] :: rest) = (.exc decodeExc, ⟨[], false⟩, rest)) ∧
    (receive_data ⟨[255, 10, 65, 10], false⟩ [] = (.exc decodeExc, ⟨[65, 10], false⟩, []) ∧
      receive_data ⟨[65, 10], false⟩ [] = (.ok ['A'], ⟨[], false⟩, [])) := by
  refine ⟨?_, ?_, by decide, by decide⟩
  · intro pre post evs h10 hdec
    rw [receive_data_open, receiveLoop_split _ _ _ h10]
    simp [lineOutcome, hdec]
  · intro b rest hb h10 hdec
    rw [receive_data_open, receiveLoop_eof _ _ (findNl_eq_none _ h10)]
    simp [hb, lineOutcome, hdec]

theorem decode_error_nonatomic_buffer_advanced_witness :
    receive_data ⟨[255] ++ 10 :: [66, 10], false⟩ [] =
      (.exc decodeExc, ⟨[66, 10], false⟩, []) :=
  decode_error_nonatomic_buffer_advanced.1 [255] [66, 10] [] (by decide) (by decide)

/-- C9: under the single-lock semantics of send_data (each thread may write
    to the wire only while holding the one lock, acquired once per call and
    released only after its loop completes), every reachable state in which
    the lock is free and all threads have finished has the wire equal to
    the concatenation of the complete frames in some order: frames are
    never interleaved. -/
theorem lock_serializes_sends_no_interleaving (pay : List (List Nat)) (s : WireSys)
    (hpay : ∀ p ∈ pay, p ≠ [])
    (hreach : Relation.ReflTransGen (WireStep pay) (initSys pay) s)
    (hfree : s.lock = none)
    (hall : ∀ t, t < pay.length → s.sents.getD t 0 = (pay.getD t []).length) :
    ∃ order : List Nat, order.Perm (List.range pay.length) ∧
      s.wire = wireFrames pay order := by
  obtain ⟨hlen, done, hnd, hdone, hcase⟩ := wireInv_reachable pay hpay s hreach
  rcases hcase with ⟨_, hw, hz⟩ | ⟨h, hlock, _⟩
  · refine ⟨done, ?_, hw⟩
    refine (List.perm_ext_iff_of_nodup hnd (List.nodup_range _)).2 ?_
    intro a
    rw [List.mem_range]
    constructor
    · intro ha
      exact (hdone a ha).1
    · intro ha
      by_contra hna
      have h0 := hz a ha hna
      have hfull := hall a ha
      have hpos := payload_length_pos pay hpay a ha
      omega
  · rw [hlock] at hfree
    cases hfree

theorem lock_serializes_sends_no_interleaving_witness :
    ∃ order : List Nat, order.Perm (List.range 2) ∧
      ([1, 2] : List Nat) = wireFrames [[1], [2]] order := by
  have h1 : WireStep [[1], [2]] ⟨none, [], [0, 0]⟩ ⟨some 0, [], [0, 0]⟩ :=
    WireStep.acquire _ 0 rfl (by decide) rfl
  have h2 : WireStep [[1], [2]] ⟨some 0, [], [0, 0]⟩ ⟨some 0, [1], [1, 0]⟩ :=
    WireStep.write _ 0 1 rfl (by decide) (by decide)
  have h3 : WireStep [[1], [2]] ⟨some 0, [1], [1, 0]⟩ ⟨none, [1], [1, 0]⟩ :=
    WireStep.release _ 0 rfl (by decide)
  have h4 : WireStep [[1], [2]] ⟨none, [1], [1, 0]⟩ ⟨some 1, [1], [1, 0]⟩ :=
    WireStep.acquire _ 1 rfl (by decide) rfl
  have h5 : WireStep [[1], [2]] ⟨some 1, [1], [1, 0]⟩ ⟨some 1, [1, 2], [1, 1]⟩ :=
    WireStep.write _ 1 1 rfl (by decide) (by decide)
  have h6 : WireStep [[1], [2]] ⟨some 1, [1, 2], [1, 1]⟩ ⟨none, [1, 2], [1, 1]⟩ :=
    WireStep.release _ 1 rfl (by decide)
  have hchain : Relation.ReflTransGen (WireStep [[1], [2]]) (initSys [[1], [2]])
      ⟨none, [1, 2], [1, 1]⟩ :=
    .tail (.tail (.tail (.tail (.tail (.tail .refl h1) h2) h3) h4) h5) h6
  exact lock_serializes_sends_no_interleaving [[1], [2]] ⟨none, [1, 2], [1, 1]⟩
    (by decide) hchain rfl (by decide)
